import Mathlib

/-!
# Verification of the geogebraVisual translation/execution pipeline

Shallow embedding of the core pipeline of the repository:
the command sanitizer, the fenced-block response extractor, the
rule-based fallback generator, the conversation-history normalizer,
the translation orchestrator with its HTTP handler, and the
client-side command executor.

Strings are modelled as `List Char` (`Str`); JavaScript values that can
flow through the untyped boundaries are modelled by the small inductive
`JSVal` with explicit truthiness and string-coercion semantics.
-/

set_option autoImplicit false
set_option maxRecDepth 20000

namespace GeoVis

abbrev Str := List Char

/-- The backtick character, written via its code point. -/
def BQ : Char := Char.ofNat 96

/-- JavaScript whitespace (the ASCII fragment relevant to this code):
space, tab, newline, carriage return, vertical tab, form feed.
This is what both `String.prototype.trim` and the regex class `\s`
recognise on the inputs this program handles. -/
def isWs (c : Char) : Bool :=
  c == ' ' || c == '\t' || c == '\n' || c == '\r' || c == '\x0b' || c == '\x0c'

/-- JavaScript `String.prototype.trim`: drop leading and trailing
whitespace. -/
def jsTrim (l : Str) : Str :=
  (l.dropWhile isWs).rdropWhile isWs

/-- Tests that `pat` is a literal prefix of `s` (anchored match of a regex `/^pat/`). -/
def startsWith : Str → Str → Bool
  | [], _ => true
  | _ :: _, [] => false
  | p :: ps, c :: cs => p == c && startsWith ps cs

/-- ASCII lower-casing of one character (enough for the fixed ASCII
patterns matched case-insensitively in the source). -/
def lowCh (c : Char) : Char :=
  if 'A' ≤ c && c ≤ 'Z' then Char.ofNat (c.toNat + 32) else c

/-- Case-insensitive anchored prefix match (regex `/^pat/i`). -/
def startsWithCI : Str → Str → Bool
  | [], _ => true
  | _ :: _, [] => false
  | p :: ps, c :: cs => lowCh p == lowCh c && startsWithCI ps cs

/-- Substring containment (regex `/pat/.test(s)` for a literal `pat`). -/
def containsSub (pat : Str) : Str → Bool
  | [] => pat.isEmpty
  | c :: cs => startsWith pat (c :: cs) || containsSub pat cs

/-- Split at the first occurrence of `pat`: returns the part before the
occurrence and the part after it.  `none` when `pat` does not occur. -/
def splitFirstSub (pat : Str) : Str → Option (Str × Str)
  | [] => if pat.isEmpty then some ([], []) else none
  | c :: cs =>
    if startsWith pat (c :: cs) then some ([], (c :: cs).drop pat.length)
    else (splitFirstSub pat cs).map (fun p => (c :: p.1, p.2))

/-- JavaScript `s.replace(pat, '')` for a plain-string `pat`:
removes the first occurrence only. -/
def replaceFirstSub (pat : Str) (s : Str) : Str :=
  match splitFirstSub pat s with
  | some (b, a) => b ++ a
  | none => s

/-- Split on `/\r?\n/`: `"\r\n"` and `"\n"` separate lines, a lone
`'\r'` does not. -/
def splitRN : Str → List Str
  | [] => [[]]
  | '\r' :: '\n' :: cs => [] :: splitRN cs
  | '\n' :: cs => [] :: splitRN cs
  | c :: cs =>
    match splitRN cs with
    | [] => [[c]]
    | l :: ls => (c :: l) :: ls

/-! ## JavaScript values at the untyped boundaries -/

/-- The JavaScript values this pipeline can see: strings, (integer)
numbers, booleans, `null` and `undefined`. -/
inductive JSVal where
  | str (s : Str)
  | num (n : Int)
  | bool (b : Bool)
  | nullv
  | undef
deriving DecidableEq

/-- JavaScript truthiness. -/
def JSVal.truthy : JSVal → Bool
  | .str s => !s.isEmpty
  | .num n => n != 0
  | .bool b => b
  | .nullv => false
  | .undef => false

/-- JavaScript `String(v)` coercion. -/
def JSVal.toStr : JSVal → Str
  | .str s => s
  | .num n => (toString n).toList
  | .bool b => if b then "true".toList else "false".toList
  | .nullv => "null".toList
  | .undef => "undefined".toList

/-- JavaScript `typeof v === 'string'`. -/
def JSVal.isStr : JSVal → Bool
  | .str _ => true
  | _ => false

/-- JavaScript `String(v || '')`: falsy values collapse to the empty
string before coercion. -/
def jsStrOrEmpty (v : JSVal) : Str :=
  if v.truthy then v.toStr else []

/-! ## Command Sanitizer (`sanitizeCommands`, server/index.js dev variant) -/

/-- Anchored case-insensitive command-name test: regex
`/^Name\s*\(/i` — the name at line start, optional whitespace, then an
opening parenthesis. -/
def scriptCmdAt (name : Str) (l : Str) : Bool :=
  startsWithCI name l &&
    match (l.drop name.length).dropWhile isWs with
    | '(' :: _ => true
    | _ => false

/-- Embeds `sanitizeCommands(lines)`: `lines` is `some` a list when
`Array.isArray(lines)`, else `none` (treated as `[]`).  Mirrors the
chain of `map`/`filter` calls of the source. -/
def sanitizeCommands (lines : Option (List JSVal)) : List Str :=
  (((((((((((lines.getD []).map (fun l => jsTrim (jsStrOrEmpty l)))
    |>.filter (fun l => !l.isEmpty))
    |>.filter (fun l => !startsWith "//".toList l))
    |>.filter (fun l => !startsWith "#".toList l))
    |>.filter (fun l => !startsWith "/*".toList l))
    |>.filter (fun l => !startsWith "*/".toList l))
    |>.filter (fun l => !scriptCmdAt "RunClickScript".toList l))
    |>.filter (fun l => !scriptCmdAt "RunUpdateScript".toList l))
    |>.filter (fun l => !scriptCmdAt "SetClickScript".toList l))
    |>.filter (fun l => !scriptCmdAt "SetUpdateScript".toList l))
    |>.filter (fun l => !scriptCmdAt "Execute".toList l)
    |>.filter (fun l => !scriptCmdAt "Button".toList l)

/-- A line is blocked when it matches a comment prefix or a disallowed
(script-family) command name at line start. -/
def isBlockedLine (l : Str) : Bool :=
  startsWith "//".toList l || startsWith "#".toList l ||
  startsWith "/*".toList l || startsWith "*/".toList l ||
  scriptCmdAt "RunClickScript".toList l || scriptCmdAt "RunUpdateScript".toList l ||
  scriptCmdAt "SetClickScript".toList l || scriptCmdAt "SetUpdateScript".toList l ||
  scriptCmdAt "Execute".toList l || scriptCmdAt "Button".toList l

/-! ## Response Extractor (`extractGeoGebraBlock`)

The source locates the first match of the regex
`/```\s*geogebra\s*\r?\n([\s\S]*?)```/i` in the reply.  The embedding
replays the backtracking semantics of that pattern at each position:

* three backticks, then the maximal whitespace run, then `geogebra`
  case-insensitively (the greedy `\s*` can only succeed on the maximal
  run, because every backtracking position would put a whitespace
  character where `g` is required);
* then `\s*\r?\n` consumes up to and including the **last** newline of
  the following maximal whitespace run (greedy `\s*` backtracks from
  the longest extension; the first position at which `\r?\n` can close
  is that last newline), and fails when that run has no newline;
* then the lazy `([\s\S]*?)` stops at the first subsequent occurrence
  of three backticks.
-/

/-- Three backticks, the fence delimiter. -/
def bt3 : Str := [BQ, BQ, BQ]

/-- The fence tag, lower case. -/
def ggTag : Str := ['g', 'e', 'o', 'g', 'e', 'b', 'r', 'a']

/-- Length (from the start of a whitespace run) consumed by `\s*\r?\n`:
one past the last `'\n'` of the run; `none` when the run has no
newline, in which case the fence fails to match at this position. -/
def lastNL : Str → Option Nat
  | [] => none
  | c :: cs =>
    match lastNL cs with
    | some k => some (k + 1)
    | none => if c == '\n' then some 1 else none

/-- Attempt the fence regex anchored at the start of `s`.  On success
returns `(m0, interior, after)`: the whole matched text, the captured
interior, and the remainder after the match. -/
def matchFenceHere (s : Str) : Option (Str × Str × Str) :=
  if startsWith bt3 s then
    let t1 := s.drop 3
    let w1 := t1.takeWhile isWs
    let t2 := t1.dropWhile isWs
    if startsWithCI ggTag t2 then
      let t3 := t2.drop ggTag.length
      let w := t3.takeWhile isWs
      match lastNL w with
      | some k =>
        match splitFirstSub bt3 (t3.drop k) with
        | some (interior, after) =>
          some (s.take (3 + w1.length + ggTag.length + k + interior.length + 3),
                interior, after)
        | none => none
      | none => none
    else none
  else none

/-- Leftmost regex match: scan positions left to right. -/
def findFence : Str → Option (Str × Str × Str)
  | [] => none
  | c :: cs =>
    match matchFenceHere (c :: cs) with
    | some r => some r
    | none => findFence cs

structure ExtractResult where
  commands : List Str
  explanation : Str
deriving DecidableEq

/-- Embeds `extractGeoGebraBlock(text)` of the dev server variant: falsy input
yields no commands and an empty explanation; otherwise the first fence
match is split off, its interior lines are trimmed, blanks dropped and
the result sanitized, and the explanation is the reply with the matched
text removed (first occurrence) and trimmed. -/
def extractGeoGebraBlock (text : JSVal) : ExtractResult :=
  if !text.truthy then ⟨[], []⟩
  else
    let s := text.toStr
    match findFence s with
    | some (m0, interior, _) =>
      ⟨sanitizeCommands (some ((((splitRN interior).map jsTrim)
          |>.filter (fun l => !l.isEmpty)).map JSVal.str)),
       jsTrim (replaceFirstSub m0 s)⟩
    | none => ⟨[], jsTrim s⟩

/-! ## Fallback Generator (`ruleBasedFallback`) -/

structure FallbackResult where
  explanation : Str
  commands : List Str
deriving DecidableEq

/-- Explanation of the empty-input branch. -/
def EMPTY_INPUT_MSG : Str := "你的输入为空，请描述你想绘制的图形或动画。".toList

/-- Explanation of the unmatched (demo-mode) branch. -/
def DEMO_MODE_MSG : Str :=
  "当前服务未配置 LLM Key，已进入演示兜底模式。我暂时只能处理“圆/椭圆/圆周运动”等少量请求。请在后端配置 DEEPSEEK_API_KEY 后再试更复杂的自然语言绘图。".toList

/-- Embeds `ruleBasedFallback(userText)`: keyword-triggered decision list,
evaluated top to bottom, first match wins. -/
def ruleBasedFallback (userText : JSVal) : FallbackResult :=
  let t := jsTrim (jsStrOrEmpty userText)
  if t.isEmpty then
    ⟨EMPTY_INPUT_MSG, []⟩
  else if containsSub "椭圆".toList t then
    ⟨"用标准椭圆方程 $$x^2/a^2 + y^2/b^2 = 1$$（这里取 a=5, b=3）来绘制椭圆。第一条命令直接定义隐式曲线；第二条命令添加文字标注。".toList,
     ["x^2/25 + y^2/9 = 1".toList, "Text(\"椭圆：x^2/25 + y^2/9 = 1\", (-9, 6))".toList]⟩
  else if containsSub "圆".toList t &&
      (containsSub "运动".toList t || containsSub "动画".toList t || containsSub "转".toList t) then
    ⟨"用滑块 a 作为参数角度（从 0 到 $$2\\pi$$），点 P 按 (5 cos(a), 5 sin(a)) 在半径 5 的圆周上运动，然后启动滑块动画。".toList,
     ["a = Slider[0, 2π, 0.01]".toList, "Circle((0, 0), 5)".toList,
      "P = (5 cos(a), 5 sin(a))".toList, "StartAnimation[a, true]".toList]⟩
  else if containsSub "圆".toList t then
    ⟨"先创建圆心 O，再以半径 5 绘制圆。".toList, ["O = (0, 0)".toList, "Circle(O, 5)".toList]⟩
  else
    ⟨DEMO_MODE_MSG, []⟩

/-! ## Conversation History Normalizer (`normalizeHistory`) -/

structure ChatMsg where
  role : Str
  content : Str
deriving DecidableEq

/-- One element of the incoming history array: `some (role, content)`
for an object with those properties, `none` for a falsy element (for a
truthy non-object, property access yields `undefined`, so such an
element behaves like `some (undef, undef)` and is filtered out the same
way). -/
abbrev HistElem := Option (JSVal × JSVal)

/-- The test `allowed.has(m.role)` for `allowed = Set(['user', 'assistant'])`. -/
def roleAllowed (r : JSVal) : Bool :=
  r == .str "user".toList || r == .str "assistant".toList

/-- JavaScript `slice(-n)`: the last `n` elements. -/
def takeLastN (n : Nat) (l : List ChatMsg) : List ChatMsg :=
  l.drop (l.length - n)

/-- The first filter's callback:
`m && allowed.has(m.role) && typeof m.content === 'string'`. -/
def histKeep (m : HistElem) : Bool :=
  match m with
  | some (r, c) => roleAllowed r && c.isStr
  | none => false

/-- The map's callback:
`{role: m.role, content: m.content.trim().slice(0, MAX_CHARS_PER_MESSAGE)}`
(the `none` arm is unreachable after the filter). -/
def histMap (m : HistElem) : ChatMsg :=
  match m with
  | some (r, c) => { role := r.toStr, content := (jsTrim c.toStr).take 4000 }
  | none => { role := [], content := [] }

/-- Embeds `normalizeHistory(history)`: `none` models a non-array input. -/
def normalizeHistory (history : Option (List HistElem)) : List ChatMsg :=
  match history with
  | none => []
  | some hs =>
    takeLastN 8
      (((hs.filter histKeep).map histMap).filter (fun m => !m.content.isEmpty))

/-! ## Translation Orchestrator (`callDeepSeekChat`, dev server variant)

The network is external: the orchestrator is parameterized by the
outcome the single HTTP call would have (`NetOutcome`).  When no API
key is configured the code returns before any network access, so the
result cannot depend on that parameter. -/

/-- Process-level configuration read from the environment. -/
structure Env where
  apiKey : Option Str
  returnRaw : Bool
deriving DecidableEq

/-- Outcome of the model HTTP call: a reply payload content
(`resp?.data?.choices?.[0]?.message?.content`, possibly absent), or a
thrown failure (network error, timeout, non-2xx) carrying the message
the catch handler would extract. -/
inductive NetOutcome where
  | reply (content : JSVal)
  | failure (msg : Str)
deriving DecidableEq

structure ChatResult where
  mode : Str
  explanation : Str
  commands : List Str
  raw : JSVal
deriving DecidableEq

/-- Embeds `callDeepSeekChat`.  A thrown error is
modelled as `Except.error`. -/
def callDeepSeekChat (env : Env) (net : NetOutcome) (userText : Str)
    (_history : Option (List HistElem)) : Except Str ChatResult :=
  match env.apiKey with
  | none =>
    let fb := ruleBasedFallback (.str userText)
    .ok { mode := "fallback".toList, explanation := fb.explanation,
          commands := fb.commands, raw := .nullv }
  | some _ =>
    match net with
    | .failure e => .error e
    | .reply content =>
      let r := extractGeoGebraBlock content
      .ok { mode := "llm".toList, explanation := r.explanation,
            commands := r.commands, raw := content }

/-! ## HTTP handler (`POST /api/translate`, dev server variant) -/

/-- Default clarification prompt used when the model gave no
explanation. -/
def CLARIFY_DEFAULT : Str :=
  "我需要你补充一些关键信息（例如对象名称、位置/坐标、参数范围、是否需要动画），然后我才能给出可执行的 GeoGebra 命令。".toList

/-- Error body of the 400 response. -/
def BAD_TEXT_MSG : Str := "text 不能为空".toList

/-- The three responses the handler can produce. -/
inductive TranslateResponse where
  | ok (explanation : Str) (commands : List Str) (needClarification : Bool)
      (raw : Option JSVal) (mode : Str)
  | badRequest (error : Str)
  | serverError (error : Str)
deriving DecidableEq

/-- The `app.post('/api/translate')` handler. -/
def translateHandler (env : Env) (net : NetOutcome) (text : JSVal)
    (history : Option (List HistElem)) : TranslateResponse :=
  if !text.truthy || !text.isStr || (jsTrim text.toStr).isEmpty then
    .badRequest BAD_TEXT_MSG
  else
    match callDeepSeekChat env net (jsTrim text.toStr) history with
    | .error e => .serverError e
    | .ok result =>
      let safeCommands := sanitizeCommands (some (result.commands.map JSVal.str))
      if safeCommands.isEmpty then
        .ok (if result.explanation.isEmpty then CLARIFY_DEFAULT else result.explanation)
          [] true (if env.returnRaw then some result.raw else none) result.mode
      else
        .ok result.explanation safeCommands false
          (if env.returnRaw then some result.raw else none) result.mode

/-! ## Client-side Command Executor (`App.jsx`) -/

/-- Embeds `normalizeCommands(commands)`: the response field may be an array
of values or a single primitive (split on line breaks). -/
inductive JSCmds where
  | arr (elems : List JSVal)
  | prim (v : JSVal)
deriving DecidableEq

def normalizeCommands : JSCmds → List Str
  | .arr l => ((l.map JSVal.toStr).map jsTrim).filter (fun s => !s.isEmpty)
  | .prim v =>
    if !v.truthy then []
    else ((splitRN v.toStr).map jsTrim).filter (fun s => !s.isEmpty)

instance {ε α : Type} [DecidableEq ε] [DecidableEq α] : DecidableEq (Except ε α) := fun x y =>
  match x, y with
  | .ok a, .ok b => if h : a = b then .isTrue (by rw [h]) else .isFalse (by simp [h])
  | .error a, .error b => if h : a = b then .isTrue (by rw [h]) else .isFalse (by simp [h])
  | .ok _, .error _ => .isFalse (by simp)
  | .error _, .ok _ => .isFalse (by simp)

/-- The component state the executor touches. -/
structure AppState where
  lastCommands : List Str
  error : Str
  explanation : Str
deriving DecidableEq

def ERR_NOT_READY : Str := "GeoGebra 尚未就绪，请稍等 applet 加载完成".toList
def ERR_NO_CMDS : Str := "没有可执行的 GeoGebra 命令".toList
def ERR_CMD_FAIL : Str := "命令执行失败：".toList

/-- The `for (const cmd of cmds)` loop: apply each command in order to
the engine `ev`; abort with a thrown error at the first falsy result.
The first component records the commands actually attempted. -/
def evalLoop (ev : Str → Bool) : List Str → List Str × Except Str Unit
  | [] => ([], .ok ())
  | c :: cs =>
    if ev c then
      let r := evalLoop ev cs
      (c :: r.1, r.2)
    else ([c], .error (ERR_CMD_FAIL ++ c))

/-- Embeds `executeCommands(commands)`: the engine handle is the function
`ev`, readiness of the session is `ggbReady`.  Returns the new state,
the list of attempted commands, and the thrown error if any. -/
def executeCommands (ev : Str → Bool) (ggbReady : Bool) (commands : JSCmds)
    (st : AppState) : AppState × List Str × Except Str Unit :=
  let cmds := normalizeCommands commands
  if !ggbReady then (st, [], .error ERR_NOT_READY)
  else if cmds.isEmpty then (st, [], .error ERR_NO_CMDS)
  else
    match evalLoop ev cmds with
    | (tr, .ok _) => ({ st with lastCommands := cmds }, tr, .ok ())
    | (tr, .error e) => (st, tr, .error e)

def CLARIFY_UI_MSG : Str := "请根据上方解释补充信息后再提交。".toList

/-- The state effect of `onSubmit` from the point where a 2xx response
body has been received (chat-history bookkeeping omitted): clears error
and explanation, normalizes the received commands, stores explanation
and `lastCommands`, then executes the batch when non-empty, any thrown
error landing in `error` via the surrounding catch. -/
def onSubmitApplyResponse (ev : Str → Bool) (ggbReady : Bool)
    (dataCommands : JSCmds) (dataExplanation : Str) (needClarification : Bool)
    (st : AppState) : AppState :=
  let st1 : AppState := { st with error := [], explanation := [] }
  let cmds := normalizeCommands dataCommands
  let st2 : AppState := { st1 with explanation := dataExplanation, lastCommands := cmds }
  if cmds.length > 0 then
    match executeCommands ev ggbReady (.arr (cmds.map JSVal.str)) st2 with
    | (st3, _, .ok _) => st3
    | (st3, _, .error e) => { st3 with error := e }
  else if needClarification then { st2 with error := CLARIFY_UI_MSG }
  else st2

/-! ## Helper lemmas about trimming -/

theorem dropWhile_ne_cons {p : Char → Bool} {l : Str} {c : Char} {cs : Str}
    (h : l.dropWhile p = c :: cs) : p c = false := by
  have := List.head?_dropWhile_not p l
  rw [h] at this
  simpa using this

theorem jsTrim_dropWhile (l : Str) : (jsTrim l).dropWhile isWs = jsTrim l := by
  cases hr : jsTrim l with
  | nil => rfl
  | cons c cs =>
    have hpre : jsTrim l <+: l.dropWhile isWs := List.rdropWhile_prefix _ _
    rw [hr] at hpre
    obtain ⟨t, ht⟩ := hpre
    have hdl : l.dropWhile isWs = c :: (cs ++ t) := by rw [← ht]; simp
    have hc : isWs c = false := dropWhile_ne_cons hdl
    rw [List.dropWhile_cons]
    simp [hc]

theorem jsTrim_idem (l : Str) : jsTrim (jsTrim l) = jsTrim l := by
  show ((jsTrim l).dropWhile isWs).rdropWhile isWs = jsTrim l
  rw [jsTrim_dropWhile]
  show ((l.dropWhile isWs).rdropWhile isWs).rdropWhile isWs = jsTrim l
  rw [List.rdropWhile_idempotent]
  rfl

/-! ## Helper lemmas about the sanitizer -/

theorem blocked_parts {l : Str} (hb : isBlockedLine l = false) :
    startsWith "//".toList l = false ∧ startsWith "#".toList l = false ∧
    startsWith "/*".toList l = false ∧ startsWith "*/".toList l = false ∧
    scriptCmdAt "RunClickScript".toList l = false ∧
    scriptCmdAt "RunUpdateScript".toList l = false ∧
    scriptCmdAt "SetClickScript".toList l = false ∧
    scriptCmdAt "SetUpdateScript".toList l = false ∧
    scriptCmdAt "Execute".toList l = false ∧ scriptCmdAt "Button".toList l = false := by
  simpa only [isBlockedLine, Bool.or_eq_false_iff, and_assoc] using hb

/-- Membership characterization of the sanitizer's output: exactly the
coerced-and-trimmed elements that are non-empty and unblocked. -/
theorem mem_sanitize_iff {lines : Option (List JSVal)} {l : Str} :
    l ∈ sanitizeCommands lines ↔
      (∃ v ∈ lines.getD [], jsTrim (jsStrOrEmpty v) = l) ∧
      l ≠ [] ∧ isBlockedLine l = false := by
  unfold sanitizeCommands
  simp only [List.mem_filter, List.mem_map]
  constructor
  · rintro ⟨⟨⟨⟨⟨⟨⟨⟨⟨⟨⟨hmem, h1⟩, h2⟩, h3⟩, h4⟩, h5⟩, h6⟩, h7⟩, h8⟩, h9⟩, h10⟩, h11⟩
    refine ⟨hmem, by simpa using h1, ?_⟩
    simp only [Bool.not_eq_true'] at h2 h3 h4 h5 h6 h7 h8 h9 h10 h11
    simp only [isBlockedLine, Bool.or_eq_false_iff, and_assoc]
    exact ⟨h2, h3, h4, h5, h6, h7, h8, h9, h10, h11⟩
  · rintro ⟨hmem, hne, hbl⟩
    obtain ⟨b1, b2, b3, b4, b5, b6, b7, b8, b9, b10⟩ := blocked_parts hbl
    exact ⟨⟨⟨⟨⟨⟨⟨⟨⟨⟨⟨hmem, by simpa using hne⟩, by rw [b1]; rfl⟩, by rw [b2]; rfl⟩,
      by rw [b3]; rfl⟩, by rw [b4]; rfl⟩, by rw [b5]; rfl⟩, by rw [b6]; rfl⟩, by rw [b7]; rfl⟩,
      by rw [b8]; rfl⟩, by rw [b9]; rfl⟩, by rw [b10]; rfl⟩

theorem sanitize_out_props {lines : Option (List JSVal)} {l : Str}
    (h : l ∈ sanitizeCommands lines) :
    l ≠ [] ∧ jsTrim l = l ∧ isBlockedLine l = false := by
  obtain ⟨⟨v, _, hv⟩, hne, hbl⟩ := mem_sanitize_iff.mp h
  exact ⟨hne, by rw [← hv, jsTrim_idem], hbl⟩

theorem sanitize_fixed {L : List Str}
    (h : ∀ l ∈ L, l ≠ [] ∧ jsTrim l = l ∧ isBlockedLine l = false) :
    sanitizeCommands (some (L.map JSVal.str)) = L := by
  have hmap : (L.map JSVal.str).map (fun v => jsTrim (jsStrOrEmpty v)) = L := by
    rw [List.map_map]
    have hid : ∀ l ∈ L, ((fun v => jsTrim (jsStrOrEmpty v)) ∘ JSVal.str) l = id l := by
      intro l hl
      obtain ⟨h1, h2, _⟩ := h l hl
      simp [jsStrOrEmpty, JSVal.truthy, JSVal.toStr, h1, h2]
    rw [List.map_congr_left hid, List.map_id]
  have hparts : ∀ l ∈ L, startsWith "//".toList l = false ∧ startsWith "#".toList l = false ∧
      startsWith "/*".toList l = false ∧ startsWith "*/".toList l = false ∧
      scriptCmdAt "RunClickScript".toList l = false ∧
      scriptCmdAt "RunUpdateScript".toList l = false ∧
      scriptCmdAt "SetClickScript".toList l = false ∧
      scriptCmdAt "SetUpdateScript".toList l = false ∧
      scriptCmdAt "Execute".toList l = false ∧ scriptCmdAt "Button".toList l = false :=
    fun l hl => blocked_parts (h l hl).2.2
  have e1 : L.filter (fun l => !l.isEmpty) = L :=
    List.filter_eq_self.mpr (fun l hl => by simp [(h l hl).1])
  have e2 : L.filter (fun l => !startsWith "//".toList l) = L :=
    List.filter_eq_self.mpr (fun l hl => by rw [(hparts l hl).1]; rfl)
  have e3 : L.filter (fun l => !startsWith "#".toList l) = L :=
    List.filter_eq_self.mpr (fun l hl => by rw [(hparts l hl).2.1]; rfl)
  have e4 : L.filter (fun l => !startsWith "/*".toList l) = L :=
    List.filter_eq_self.mpr (fun l hl => by rw [(hparts l hl).2.2.1]; rfl)
  have e5 : L.filter (fun l => !startsWith "*/".toList l) = L :=
    List.filter_eq_self.mpr (fun l hl => by rw [(hparts l hl).2.2.2.1]; rfl)
  have e6 : L.filter (fun l => !scriptCmdAt "RunClickScript".toList l) = L :=
    List.filter_eq_self.mpr (fun l hl => by rw [(hparts l hl).2.2.2.2.1]; rfl)
  have e7 : L.filter (fun l => !scriptCmdAt "RunUpdateScript".toList l) = L :=
    List.filter_eq_self.mpr (fun l hl => by rw [(hparts l hl).2.2.2.2.2.1]; rfl)
  have e8 : L.filter (fun l => !scriptCmdAt "SetClickScript".toList l) = L :=
    List.filter_eq_self.mpr (fun l hl => by rw [(hparts l hl).2.2.2.2.2.2.1]; rfl)
  have e9 : L.filter (fun l => !scriptCmdAt "SetUpdateScript".toList l) = L :=
    List.filter_eq_self.mpr (fun l hl => by rw [(hparts l hl).2.2.2.2.2.2.2.1]; rfl)
  have e10 : L.filter (fun l => !scriptCmdAt "Execute".toList l) = L :=
    List.filter_eq_self.mpr (fun l hl => by rw [(hparts l hl).2.2.2.2.2.2.2.2.1]; rfl)
  have e11 : L.filter (fun l => !scriptCmdAt "Button".toList l) = L :=
    List.filter_eq_self.mpr (fun l hl => by rw [(hparts l hl).2.2.2.2.2.2.2.2.2]; rfl)
  unfold sanitizeCommands
  simp only [Option.getD_some]
  rw [hmap, e1, e2, e3, e4, e5, e6, e7, e8, e9, e10, e11]

/-! ## C2 and C8: Command Sanitizer claims -/

/-- C2: every line of the sanitizer's output is non-empty, equal to its
own trim, and matches neither a comment prefix (`//`, `#`, `/*`, `*/`)
nor a disallowed command name (the six script-family names,
case-insensitive, followed by an opening parenthesis) at line start;
and applying the sanitizer to its own output returns it unchanged. -/
theorem sanitizeCommands_clean_idem (lines : Option (List JSVal)) :
    (∀ l ∈ sanitizeCommands lines,
      l ≠ [] ∧ jsTrim l = l ∧
      startsWith "//".toList l = false ∧ startsWith "#".toList l = false ∧
      startsWith "/*".toList l = false ∧ startsWith "*/".toList l = false ∧
      scriptCmdAt "RunClickScript".toList l = false ∧
      scriptCmdAt "RunUpdateScript".toList l = false ∧
      scriptCmdAt "SetClickScript".toList l = false ∧
      scriptCmdAt "SetUpdateScript".toList l = false ∧
      scriptCmdAt "Execute".toList l = false ∧
      scriptCmdAt "Button".toList l = false) ∧
    sanitizeCommands (some ((sanitizeCommands lines).map JSVal.str)) =
      sanitizeCommands lines := by
  constructor
  · intro l hl
    obtain ⟨h1, h2, h3⟩ := sanitize_out_props hl
    simp only [isBlockedLine, Bool.or_eq_false_iff] at h3
    exact ⟨h1, h2, h3.1.1.1.1.1.1.1.1.1, h3.1.1.1.1.1.1.1.1.2, h3.1.1.1.1.1.1.1.2,
      h3.1.1.1.1.1.1.2, h3.1.1.1.1.1.2, h3.1.1.1.1.2, h3.1.1.1.2, h3.1.1.2, h3.1.2, h3.2⟩
  · exact sanitize_fixed (fun l hl => sanitize_out_props hl)

/-- Witness for C2 at a concrete input. -/
theorem sanitizeCommands_clean_idem_witness :
    ("A = (0,0)".toList ∈ sanitizeCommands (some [JSVal.str " A = (0,0) ".toList,
        JSVal.str "// c".toList, JSVal.nullv])) ∧
    "A = (0,0)".toList ≠ [] ∧ jsTrim "A = (0,0)".toList = "A = (0,0)".toList ∧
    startsWith "//".toList "A = (0,0)".toList = false ∧
    startsWith "#".toList "A = (0,0)".toList = false ∧
    startsWith "/*".toList "A = (0,0)".toList = false ∧
    startsWith "*/".toList "A = (0,0)".toList = false ∧
    scriptCmdAt "RunClickScript".toList "A = (0,0)".toList = false ∧
    scriptCmdAt "RunUpdateScript".toList "A = (0,0)".toList = false ∧
    scriptCmdAt "SetClickScript".toList "A = (0,0)".toList = false ∧
    scriptCmdAt "SetUpdateScript".toList "A = (0,0)".toList = false ∧
    scriptCmdAt "Execute".toList "A = (0,0)".toList = false ∧
    scriptCmdAt "Button".toList "A = (0,0)".toList = false ∧
    sanitizeCommands (some ((sanitizeCommands (some [JSVal.str " A = (0,0) ".toList,
        JSVal.str "// c".toList, JSVal.nullv])).map JSVal.str)) =
      sanitizeCommands (some [JSVal.str " A = (0,0) ".toList,
        JSVal.str "// c".toList, JSVal.nullv]) := by
  have h := sanitizeCommands_clean_idem (some [JSVal.str " A = (0,0) ".toList,
    JSVal.str "// c".toList, JSVal.nullv])
  have hmem : "A = (0,0)".toList ∈ sanitizeCommands (some [JSVal.str " A = (0,0) ".toList,
      JSVal.str "// c".toList, JSVal.nullv]) := by decide
  obtain ⟨h1, h2, h3, h4, h5, h6, h7, h8, h9, h10, h11, h12⟩ := h.1 _ hmem
  exact ⟨hmem, h1, h2, h3, h4, h5, h6, h7, h8, h9, h10, h11, h12, h.2⟩

/-- C8 counterexample: the element `0` (the claim's own example) has
coerced text `"0"`, which is non-empty after trimming and clean, yet
the sanitizer's `String(l || '')` coercion collapses the falsy value
`0` to the empty string, so nothing appears in the output. -/
theorem sanitize_drops_zero_cex :
    sanitizeCommands (some [JSVal.num 0]) = [] ∧
    jsTrim (JSVal.num 0).toStr = ['0'] ∧ ('0' :: ([] : Str)) ≠ [] ∧
    isBlockedLine ['0'] = false := by decide

/-- C8 amended: elements are coerced through `String(l || '')`, so
falsy elements (`0`, `false`, `null`, `undefined`, the empty string)
collapse to the empty string and are dropped; every **truthy** element
whose coerced trimmed text is non-empty and clean appears in the output
as that text. -/
theorem sanitize_truthy_kept (lines : List JSVal) :
    (∀ l, l ∈ sanitizeCommands (some lines) ↔
      ((∃ v ∈ lines, jsTrim (jsStrOrEmpty v) = l) ∧ l ≠ [] ∧ isBlockedLine l = false)) ∧
    ∀ v ∈ lines, v.truthy = true → jsTrim v.toStr ≠ [] →
      isBlockedLine (jsTrim v.toStr) = false →
      jsTrim v.toStr ∈ sanitizeCommands (some lines) := by
  refine ⟨fun l => mem_sanitize_iff, ?_⟩
  intro v hv htr hne hcl
  refine mem_sanitize_iff.mpr ⟨⟨v, hv, ?_⟩, hne, hcl⟩
  rw [jsStrOrEmpty, if_pos htr]

/-! ## C6: Fallback Generator circle+motion claim -/

/-- A `StartAnimation`-class command: the command name at the start of
the line. -/
def isStartAnimCmd (l : Str) : Bool := startsWith "StartAnimation".toList l

/-- A slider-driven animated point: a point-definition command
(`name = (...)`) whose coordinates reference the slider parameter `a`. -/
def isSliderPointCmd (l : Str) : Bool :=
  containsSub " = (".toList l && containsSub "(a)".toList l

theorem containsSub_ne_nil {c : Char} {p : Str} {t : Str}
    (h : containsSub (c :: p) t = true) : t ≠ [] := by
  intro ht
  rw [ht] at h
  simp [containsSub, List.isEmpty] at h

/-- C6 counterexample: `椭圆运动` contains the circle keyword `圆` (as
part of `椭圆`) and the motion keyword `运动`, but the ellipse rule
matches first, so the command list has no `StartAnimation` command and
no slider-driven point at all — not exactly one of each. -/
theorem fallback_ellipse_motion_cex :
    containsSub "圆".toList (jsTrim (jsStrOrEmpty (JSVal.str "椭圆运动".toList))) = true ∧
    containsSub "运动".toList (jsTrim (jsStrOrEmpty (JSVal.str "椭圆运动".toList))) = true ∧
    ¬ ((ruleBasedFallback (JSVal.str "椭圆运动".toList)).commands.countP isStartAnimCmd = 1) ∧
    ¬ ((ruleBasedFallback (JSVal.str "椭圆运动".toList)).commands.countP isSliderPointCmd = 1) := by
  decide

/-- C6 amended: for user text containing a circle keyword and a motion
keyword **and not containing the ellipse keyword `椭圆`** (whose rule is
earlier in the top-to-bottom first-match decision list), the fallback
result is the circle-motion template, which has exactly one
slider-driven animated point and exactly one `StartAnimation`-class
command. -/
theorem fallback_circle_motion_spec (v : JSVal)
    (hcirc : containsSub "圆".toList (jsTrim (jsStrOrEmpty v)) = true)
    (hmot : (containsSub "运动".toList (jsTrim (jsStrOrEmpty v)) ||
             containsSub "动画".toList (jsTrim (jsStrOrEmpty v)) ||
             containsSub "转".toList (jsTrim (jsStrOrEmpty v))) = true)
    (hell : containsSub "椭圆".toList (jsTrim (jsStrOrEmpty v)) = false) :
    ruleBasedFallback v =
      ⟨"用滑块 a 作为参数角度（从 0 到 $$2\\pi$$），点 P 按 (5 cos(a), 5 sin(a)) 在半径 5 的圆周上运动，然后启动滑块动画。".toList,
       ["a = Slider[0, 2π, 0.01]".toList, "Circle((0, 0), 5)".toList,
        "P = (5 cos(a), 5 sin(a))".toList, "StartAnimation[a, true]".toList]⟩ ∧
    (ruleBasedFallback v).commands.countP isStartAnimCmd = 1 ∧
    (ruleBasedFallback v).commands.countP isSliderPointCmd = 1 := by
  have hne : (jsTrim (jsStrOrEmpty v)).isEmpty = false := by
    cases ht : jsTrim (jsStrOrEmpty v) with
    | nil => rw [ht] at hcirc; simp [containsSub, List.isEmpty] at hcirc
    | cons c cs => rfl
  have hr : ruleBasedFallback v =
      ⟨"用滑块 a 作为参数角度（从 0 到 $$2\\pi$$），点 P 按 (5 cos(a), 5 sin(a)) 在半径 5 的圆周上运动，然后启动滑块动画。".toList,
       ["a = Slider[0, 2π, 0.01]".toList, "Circle((0, 0), 5)".toList,
        "P = (5 cos(a), 5 sin(a))".toList, "StartAnimation[a, true]".toList]⟩ := by
    unfold ruleBasedFallback
    simp only [hne, Bool.false_eq_true, if_false, hell, hcirc, hmot, Bool.and_self, if_true]
  refine ⟨hr, ?_, ?_⟩ <;> rw [hr] <;> decide

/-- Witness for C6's amended theorem at a concrete input. -/
theorem fallback_circle_motion_spec_witness :
    (containsSub "圆".toList (jsTrim (jsStrOrEmpty (JSVal.str "圆上一点做圆周运动".toList))) = true ∧
     (containsSub "运动".toList (jsTrim (jsStrOrEmpty (JSVal.str "圆上一点做圆周运动".toList))) ||
      containsSub "动画".toList (jsTrim (jsStrOrEmpty (JSVal.str "圆上一点做圆周运动".toList))) ||
      containsSub "转".toList (jsTrim (jsStrOrEmpty (JSVal.str "圆上一点做圆周运动".toList)))) = true ∧
     containsSub "椭圆".toList (jsTrim (jsStrOrEmpty (JSVal.str "圆上一点做圆周运动".toList))) = false) ∧
    (ruleBasedFallback (JSVal.str "圆上一点做圆周运动".toList)).commands.countP isStartAnimCmd = 1 ∧
    (ruleBasedFallback (JSVal.str "圆上一点做圆周运动".toList)).commands.countP isSliderPointCmd = 1 :=
  ⟨⟨by decide, by decide, by decide⟩,
    (fallback_circle_motion_spec (JSVal.str "圆上一点做圆周运动".toList)
      (by decide) (by decide) (by decide)).2⟩

/-! ## C7: Conversation History Normalizer -/

/-- Content exposing truncation-after-trim: a 4002-character string
with no leading or trailing whitespace but a long interior run of
spaces crossing the 4000-character cap. -/
def LONG_CONTENT : Str := 'a' :: (List.replicate 4000 ' ' ++ ['b'])

theorem rdropWhile_append_replicate (p : Char → Bool) (x : Char) (hp : p x = true)
    (l : Str) : ∀ n, (l ++ List.replicate n x).rdropWhile p = l.rdropWhile p
  | 0 => by simp
  | n + 1 => by
    rw [List.replicate_succ', ← List.append_assoc,
      List.rdropWhile_concat_pos p _ x hp]
    exact rdropWhile_append_replicate p x hp l n

theorem jsTrim_LONG : jsTrim LONG_CONTENT = LONG_CONTENT := by
  unfold jsTrim LONG_CONTENT
  rw [List.dropWhile_cons, if_neg (by decide)]
  rw [← List.cons_append 'a' (List.replicate 4000 ' ') ['b']]
  rw [List.rdropWhile_concat_neg isWs _ 'b' (by decide)]

theorem take_LONG : LONG_CONTENT.take 4000 = 'a' :: List.replicate 3999 ' ' := by
  unfold LONG_CONTENT
  rw [show (4000 : Nat) = 3999 + 1 from rfl, List.take_succ_cons,
    List.take_append_of_le_length (by rw [List.length_replicate]; exact Nat.le_succ 3999),
    List.take_replicate]
  norm_num

theorem jsTrim_truncated : jsTrim ('a' :: List.replicate 3999 ' ') = ['a'] := by
  unfold jsTrim
  rw [List.dropWhile_cons, if_neg (by decide)]
  rw [show ('a' :: List.replicate 3999 ' ') = ['a'] ++ List.replicate 3999 ' ' from rfl]
  rw [rdropWhile_append_replicate isWs ' ' (by decide) ['a'] 3999]
  decide

/-- C7 counterexample: trimming happens **before** truncation to 4000
characters, so truncation can expose trailing whitespace; the resulting
content is not equal to its own trim, i.e. not "a trimmed string". -/
theorem normalizeHistory_trailing_ws_cex :
    normalizeHistory (some [some (.str "user".toList, .str LONG_CONTENT)]) =
      [⟨"user".toList, 'a' :: List.replicate 3999 ' '⟩] ∧
    jsTrim ('a' :: List.replicate 3999 ' ') ≠ 'a' :: List.replicate 3999 ' ' := by
  constructor
  · simp only [normalizeHistory]
    rw [List.filter_cons, if_pos (by decide)]
    rw [List.filter_nil, List.map_cons, List.map_nil]
    simp only [histMap, JSVal.toStr]
    rw [jsTrim_LONG, take_LONG]
    rw [List.filter_cons, if_pos (by decide), List.filter_nil]
    rfl
  · rw [jsTrim_truncated]
    intro h
    injection h with h1 h2
    have h3 := congrArg List.length h2
    rw [List.length_nil, List.length_replicate] at h3
    exact absurd h3 (by decide)

/-- C7 amended: the normalizer never fails; its output has length at
most 8 and is a **suffix** of exact length `min 8 n` of the processed
list (the `n` kept, trimmed-then-truncated, non-empty messages), i.e.
the most recent at most 8 messages — a prefix-keeping `slice(0, 8)`
would violate the suffix conjunct whenever more than 8 messages
survive; every role is `user` or `assistant`; and every content is
non-empty, of length at most 4000, and obtained from an element
`(r, c)` of the input history by trimming that element's own content
and then truncating it to 4000 characters — truncation happens after
trimming, so the content may end in exposed interior whitespace and
need not equal its own trim. -/
theorem normalizeHistory_bounds (history : Option (List HistElem)) :
    (normalizeHistory history).length ≤ 8 ∧
    (normalizeHistory history).length =
      min 8 ((((history.getD []).filter histKeep).map histMap).filter
        (fun m => !m.content.isEmpty)).length ∧
    normalizeHistory history <:+
      ((((history.getD []).filter histKeep).map histMap).filter
        (fun m => !m.content.isEmpty)) ∧
    ∀ m ∈ normalizeHistory history,
      (m.role = "user".toList ∨ m.role = "assistant".toList) ∧
      m.content ≠ [] ∧ m.content.length ≤ 4000 ∧
      ∃ r c, some (r, c) ∈ history.getD [] ∧
        m.role = r.toStr ∧ m.content = (jsTrim c.toStr).take 4000 := by
  have hP : normalizeHistory history =
      takeLastN 8 ((((history.getD []).filter histKeep).map histMap).filter
        (fun m => !m.content.isEmpty)) := by
    cases history with
    | none => rfl
    | some hs => rfl
  refine ⟨?_, ?_, ?_, ?_⟩
  · rw [hP]
    simp only [takeLastN, List.length_drop]
    omega
  · rw [hP]
    simp only [takeLastN, List.length_drop]
    omega
  · rw [hP]
    exact List.drop_suffix _ _
  · intro m hm
    have hm' : m ∈ (((history.getD []).filter histKeep).map histMap).filter
        (fun x => !x.content.isEmpty) := by
      rw [hP] at hm
      exact List.mem_of_mem_drop hm
    rw [List.mem_filter] at hm'
    obtain ⟨hmap, hcont⟩ := hm'
    obtain ⟨x, hx, hxm⟩ := List.mem_map.mp hmap
    rw [List.mem_filter] at hx
    obtain ⟨hxmem, hxp⟩ := hx
    match x with
    | none => simp [histKeep] at hxp
    | some (r, c) =>
      simp only [histKeep, Bool.and_eq_true] at hxp
      obtain ⟨hrole, -⟩ := hxp
      simp only [histMap] at hxm
      refine ⟨?_, ?_, ?_, ⟨r, c, hxmem, ?_, ?_⟩⟩
      · rw [← hxm]
        simp only [roleAllowed, Bool.or_eq_true, beq_iff_eq] at hrole
        rcases hrole with h | h <;> [left; right] <;> rw [h] <;> rfl
      · rw [← hxm] at hcont ⊢
        simp at hcont ⊢
        exact hcont
      · rw [← hxm]
        exact List.length_take_le 4000 (jsTrim c.toStr)
      · rw [← hxm]
      · rw [← hxm]

/-- Witness for C7's amended theorem at a concrete input. -/
theorem normalizeHistory_bounds_witness :
    ((⟨"user".toList, "hi".toList⟩ : ChatMsg) ∈
      normalizeHistory (some [some (.str "user".toList, .str " hi ".toList), none])) ∧
    ((⟨"user".toList, "hi".toList⟩ : ChatMsg).role = "user".toList ∨
      (⟨"user".toList, "hi".toList⟩ : ChatMsg).role = "assistant".toList) ∧
    ("hi".toList : Str) ≠ [] ∧ ("hi".toList : Str).length ≤ 4000 ∧
    (normalizeHistory (some [some (.str "user".toList, .str " hi ".toList), none])).length ≤ 8 ∧
    normalizeHistory (some [some (.str "user".toList, .str " hi ".toList), none]) <:+
      (((([some (.str "user".toList, .str " hi ".toList), none] : List HistElem).filter
        histKeep).map histMap).filter (fun m => !m.content.isEmpty)) := by
  have h := normalizeHistory_bounds (some [some (.str "user".toList, .str " hi ".toList), none])
  have hmem : (⟨"user".toList, "hi".toList⟩ : ChatMsg) ∈
      normalizeHistory (some [some (.str "user".toList, .str " hi ".toList), none]) := by decide
  obtain ⟨h1, h2, h3, -⟩ := h.2.2.2 _ hmem
  exact ⟨hmem, h1, h2, h3, h.1, h.2.2.1⟩

/-- Witness for C8's amended theorem at a concrete input. -/
theorem sanitize_truthy_kept_witness :
    ((JSVal.str " X = 1 ".toList) ∈ [JSVal.str " X = 1 ".toList, JSVal.num 0] ∧
      (JSVal.str " X = 1 ".toList).truthy = true ∧
      jsTrim (JSVal.str " X = 1 ".toList).toStr ≠ [] ∧
      isBlockedLine (jsTrim (JSVal.str " X = 1 ".toList).toStr) = false) ∧
    jsTrim (JSVal.str " X = 1 ".toList).toStr ∈
      sanitizeCommands (some [JSVal.str " X = 1 ".toList, JSVal.num 0]) :=
  ⟨⟨by decide, by decide, by decide, by decide⟩,
    (sanitize_truthy_kept [JSVal.str " X = 1 ".toList, JSVal.num 0]).2
      _ (by decide) (by decide) (by decide) (by decide)⟩

/-! ## C3: Response Extractor -/

theorem startsWith_append_self (p r : Str) : startsWith p (p ++ r) = true := by
  induction p with
  | nil => rfl
  | cons a ps ih => simp [startsWith, ih]

theorem splitFirstSub_clean {pat : Str} {c0 : Char} (hpat : pat.head? = some c0)
    {a : Str} (ha : ∀ c ∈ a, c ≠ c0) (rest : Str) :
    splitFirstSub pat (a ++ (pat ++ rest)) = some (a, rest) := by
  induction a with
  | nil =>
    cases pat with
    | nil => simp at hpat
    | cons p0 pt =>
      rw [List.nil_append]
      have hsw : startsWith (p0 :: pt) (p0 :: (pt ++ rest)) = true := by
        have h := startsWith_append_self (p0 :: pt) rest
        rw [List.cons_append] at h
        exact h
      rw [show (p0 :: pt) ++ rest = p0 :: (pt ++ rest) from rfl]
      simp only [splitFirstSub, hsw, if_true]
      have hdrop : (p0 :: (pt ++ rest)).drop (p0 :: pt).length = rest := by
        have h := List.drop_left (p0 :: pt) rest
        rw [List.cons_append] at h
        exact h
      rw [hdrop]
  | cons x xs ih =>
    have hx : x ≠ c0 := ha x (by simp)
    rw [List.cons_append]
    have hsw : startsWith pat (x :: (xs ++ (pat ++ rest))) = false := by
      cases pat with
      | nil => simp at hpat
      | cons p0 pt =>
        simp only [List.head?] at hpat
        injection hpat with hp0
        have hbq : (p0 == x) = false := by
          rw [hp0]
          exact beq_eq_false_iff_ne.mpr (Ne.symm hx)
        simp [startsWith, hbq]
    simp only [splitFirstSub, hsw, Bool.false_eq_true, if_false]
    rw [ih (fun c hc => ha c (by simp [hc]))]
    rfl

theorem replaceFirstSub_clean {pat : Str} {c0 : Char} (hpat : pat.head? = some c0)
    {a : Str} (ha : ∀ c ∈ a, c ≠ c0) (rest : Str) :
    replaceFirstSub pat (a ++ (pat ++ rest)) = a ++ rest := by
  unfold replaceFirstSub
  rw [splitFirstSub_clean hpat ha rest]

theorem matchFenceHere_none_of_head {c : Char} {cs : Str} (hc : c ≠ BQ) :
    matchFenceHere (c :: cs) = none := by
  have hbq : (BQ == c) = false := beq_eq_false_iff_ne.mpr (Ne.symm hc)
  have hsw : startsWith bt3 (c :: cs) = false := by
    simp [bt3, startsWith, hbq]
  simp [matchFenceHere, hsw]

theorem findFence_append {pre : Str} (hpre : ∀ c ∈ pre, c ≠ BQ) (rest : Str) :
    findFence (pre ++ rest) = findFence rest := by
  induction pre with
  | nil => rfl
  | cons c cs ih =>
    rw [List.cons_append]
    have hm := @matchFenceHere_none_of_head c (cs ++ rest) (hpre c (by simp))
    show (match matchFenceHere (c :: (cs ++ rest)) with
      | some r => some r
      | none => findFence (cs ++ rest)) = findFence rest
    rw [hm]
    exact ih (fun x hx => hpre x (by simp [hx]))

theorem findFence_none {s : Str} (h : containsSub bt3 s = false) : findFence s = none := by
  induction s with
  | nil => rfl
  | cons c cs ih =>
    rw [containsSub, Bool.or_eq_false_iff] at h
    have hm : matchFenceHere (c :: cs) = none := by
      simp [matchFenceHere, h.1]
    show (match matchFenceHere (c :: cs) with
      | some r => some r
      | none => findFence cs) = none
    rw [hm]
    exact ih h.2

theorem matchFenceHere_open (body post : Str)
    (hbody : ∀ c ∈ body, c ≠ BQ)
    (hhead : ∀ c, body.head? = some c → isWs c = false) :
    matchFenceHere (bt3 ++ (ggTag ++ ('\n' :: (body ++ (bt3 ++ post))))) =
      some (bt3 ++ (ggTag ++ ('\n' :: (body ++ bt3))), body, post) := by
  have h1 : startsWith bt3 (bt3 ++ (ggTag ++ ('\n' :: (body ++ (bt3 ++ post))))) = true :=
    startsWith_append_self _ _
  have hdrop3 : (bt3 ++ (ggTag ++ ('\n' :: (body ++ (bt3 ++ post))))).drop 3 =
      ggTag ++ ('\n' :: (body ++ (bt3 ++ post))) :=
    List.drop_left bt3 _
  have htw1 : (ggTag ++ ('\n' :: (body ++ (bt3 ++ post)))).takeWhile isWs = [] := rfl
  have hdw1 : (ggTag ++ ('\n' :: (body ++ (bt3 ++ post)))).dropWhile isWs =
      ggTag ++ ('\n' :: (body ++ (bt3 ++ post))) := rfl
  have hci : startsWithCI ggTag (ggTag ++ ('\n' :: (body ++ (bt3 ++ post)))) = true := rfl
  have hdrop8 : (ggTag ++ ('\n' :: (body ++ (bt3 ++ post)))).drop ggTag.length =
      '\n' :: (body ++ (bt3 ++ post)) :=
    List.drop_left ggTag _
  have htwB : (body ++ (bt3 ++ post)).takeWhile isWs = [] := by
    cases body with
    | nil => rfl
    | cons b bs =>
      have hb : isWs b = false := hhead b rfl
      rw [List.cons_append, List.takeWhile_cons, hb]
      rfl
  have htw2 : ('\n' :: (body ++ (bt3 ++ post))).takeWhile isWs = ['\n'] := by
    rw [List.takeWhile_cons, htwB]
    rfl
  have hln : lastNL ['\n'] = some 1 := rfl
  have hd1 : ('\n' :: (body ++ (bt3 ++ post))).drop 1 = body ++ (bt3 ++ post) := rfl
  have hsp : splitFirstSub bt3 (body ++ (bt3 ++ post)) = some (body, post) :=
    @splitFirstSub_clean bt3 BQ rfl body hbody post
  have htake : (bt3 ++ (ggTag ++ ('\n' :: (body ++ (bt3 ++ post))))).take
      (3 + ([] : Str).length + ggTag.length + 1 + body.length + 3) =
      bt3 ++ (ggTag ++ ('\n' :: (body ++ bt3))) := by
    have hre : bt3 ++ (ggTag ++ ('\n' :: (body ++ (bt3 ++ post)))) =
        (bt3 ++ (ggTag ++ ('\n' :: (body ++ bt3)))) ++ post := by
      simp [List.append_assoc]
    rw [hre]
    apply List.take_left'
    simp [bt3, ggTag]
    omega
  rw [matchFenceHere]
  rw [if_pos h1]
  simp only [hdrop3, htw1, hdw1, hci, if_true, hdrop8, htw2, hln, hd1, hsp, htake]

theorem jsTrim_nil : jsTrim [] = [] := rfl

/-- C3: for a reply containing a well-formed fenced geogebra block —
backtick-free surrounding text and body, the body starting with a
non-whitespace character (or empty), every body line clean for the
sanitizer — the extractor returns exactly the block's interior
non-blank trimmed lines in order, and the explanation is the reply with
the fenced block (fences included) removed and trimmed; and for a reply
with no fence at all, it returns no commands and the full trimmed reply
as explanation. -/
theorem extractGeoGebraBlock_spec (pre body post : Str)
    (hpre : ∀ c ∈ pre, c ≠ BQ) (hbody : ∀ c ∈ body, c ≠ BQ)
    (hhead : ∀ c, body.head? = some c → isWs c = false)
    (hlines : ∀ l ∈ splitRN body, isBlockedLine (jsTrim l) = false) :
    extractGeoGebraBlock
        (.str (pre ++ (bt3 ++ (ggTag ++ ('\n' :: (body ++ (bt3 ++ post))))))) =
      ⟨((splitRN body).map jsTrim).filter (fun l => !l.isEmpty),
       jsTrim (pre ++ post)⟩ ∧
    ∀ s, containsSub bt3 s = false → extractGeoGebraBlock (.str s) = ⟨[], jsTrim s⟩ := by
  constructor
  · have hff : findFence (pre ++ (bt3 ++ (ggTag ++ ('\n' :: (body ++ (bt3 ++ post)))))) =
        some (bt3 ++ (ggTag ++ ('\n' :: (body ++ bt3))), body, post) := by
      rw [findFence_append hpre]
      show (match matchFenceHere (bt3 ++ (ggTag ++ ('\n' :: (body ++ (bt3 ++ post))))) with
        | some r => some r
        | none => findFence (BQ :: (BQ :: (ggTag ++ ('\n' :: (body ++ (bt3 ++ post))))))) =
        some (bt3 ++ (ggTag ++ ('\n' :: (body ++ bt3))), body, post)
      rw [matchFenceHere_open body post hbody hhead]
    have hne : (pre ++ (bt3 ++ (ggTag ++ ('\n' :: (body ++ (bt3 ++ post)))))) ≠ [] := by
      simp [bt3]
    have htruthy : (JSVal.str
        (pre ++ (bt3 ++ (ggTag ++ ('\n' :: (body ++ (bt3 ++ post))))))).truthy = true := by
      simp [JSVal.truthy, hne]
    have hrepl : replaceFirstSub (bt3 ++ (ggTag ++ ('\n' :: (body ++ bt3))))
        (pre ++ (bt3 ++ (ggTag ++ ('\n' :: (body ++ (bt3 ++ post)))))) = pre ++ post := by
      have hre : pre ++ (bt3 ++ (ggTag ++ ('\n' :: (body ++ (bt3 ++ post))))) =
          pre ++ ((bt3 ++ (ggTag ++ ('\n' :: (body ++ bt3)))) ++ post) := by
        simp [List.append_assoc]
      rw [hre]
      exact @replaceFirstSub_clean (bt3 ++ (ggTag ++ ('\n' :: (body ++ bt3)))) BQ rfl
        pre hpre post
    have hsan : sanitizeCommands (some (((((splitRN body).map jsTrim)
        |>.filter (fun l => !l.isEmpty)).map JSVal.str))) =
        ((splitRN body).map jsTrim).filter (fun l => !l.isEmpty) := by
      apply sanitize_fixed
      intro l hl
      rw [List.mem_filter] at hl
      obtain ⟨hlm, hlne⟩ := hl
      obtain ⟨l0, hl0, hl0t⟩ := List.mem_map.mp hlm
      refine ⟨by simpa using hlne, by rw [← hl0t, jsTrim_idem], ?_⟩
      rw [← hl0t]
      exact hlines l0 hl0
    simp only [extractGeoGebraBlock, htruthy, Bool.not_true, Bool.false_eq_true, if_false,
      JSVal.toStr, hff, hsan, hrepl]
  · intro s hs
    by_cases hnil : s = []
    · subst hnil
      rfl
    · have htruthy : (JSVal.str s).truthy = true := by
        simp [JSVal.truthy, hnil]
      simp only [extractGeoGebraBlock, htruthy, Bool.not_true, Bool.false_eq_true, if_false,
        JSVal.toStr, findFence_none hs]

/-- Witness for C3 at a concrete input: the spec's own example block. -/
theorem extractGeoGebraBlock_spec_witness :
    extractGeoGebraBlock
        (.str "看这里\n```geogebra\nA = (0,0)\nCircle(A, 5)\n```\n完毕".toList) =
      ⟨["A = (0,0)".toList, "Circle(A, 5)".toList], "看这里\n\n完毕".toList⟩ ∧
    extractGeoGebraBlock (.str "没有命令块的回复".toList) =
      ⟨[], "没有命令块的回复".toList⟩ := by
  constructor
  · have h := (extractGeoGebraBlock_spec "看这里\n".toList
      "A = (0,0)\nCircle(A, 5)\n".toList "\n完毕".toList
      (by decide) (by decide) (by decide) (by decide)).1
    have he : "看这里\n".toList ++ (bt3 ++ (ggTag ++ ('\n' ::
        ("A = (0,0)\nCircle(A, 5)\n".toList ++ (bt3 ++ "\n完毕".toList))))) =
        "看这里\n```geogebra\nA = (0,0)\nCircle(A, 5)\n```\n完毕".toList := by decide
    rw [← he, h]
    decide
  · have h := (extractGeoGebraBlock_spec [] [] [] (by decide) (by decide)
      (by decide) (by decide)).2
    exact h "没有命令块的回复".toList (by decide)

/-! ## C1 and C9: Command Executor -/

theorem evalLoop_failure (ev : Str → Bool) :
    ∀ (cmds : List Str) (i : Nat) (hi : i < cmds.length),
      (∀ j (hj : j < i), ev (cmds.get ⟨j, hj.trans hi⟩) = true) →
      ev (cmds.get ⟨i, hi⟩) = false →
      evalLoop ev cmds = (cmds.take (i + 1), .error (ERR_CMD_FAIL ++ cmds.get ⟨i, hi⟩))
  | [], i, hi, _, _ => absurd hi (by simp)
  | c :: cs, 0, hi, _, hfail => by
    have hc : ev c = false := hfail
    simp [evalLoop, hc]
  | c :: cs, i + 1, hi, hsucc, hfail => by
    have hc : ev c = true := hsucc 0 (Nat.succ_pos i)
    have ih := evalLoop_failure ev cs i (Nat.lt_of_succ_lt_succ hi)
      (fun j hj => hsucc (j + 1) (Nat.succ_lt_succ hj)) hfail
    simp [evalLoop, hc, ih]

theorem toStr_str_map (L : List Str) : (L.map JSVal.str).map JSVal.toStr = L := by
  rw [List.map_map]
  have h : ∀ l ∈ L, (JSVal.toStr ∘ JSVal.str) l = id l := fun l _ => rfl
  rw [List.map_congr_left h, List.map_id]

theorem normalizeCommands_map_str {L : List Str}
    (h : ∀ c ∈ L, jsTrim c = c ∧ c ≠ []) :
    normalizeCommands (.arr (L.map JSVal.str)) = L := by
  simp only [normalizeCommands]
  rw [toStr_str_map]
  have hmap : L.map jsTrim = L := by
    have h' : ∀ l ∈ L, jsTrim l = id l := fun l hl => (h l hl).1
    rw [List.map_congr_left h', List.map_id]
  rw [hmap, List.filter_eq_self.mpr (fun l hl => by simp [(h l hl).2])]

theorem normalizeCommands_clean (data : JSCmds) :
    ∀ c ∈ normalizeCommands data, jsTrim c = c ∧ c ≠ [] := by
  intro c hc
  match data with
  | .arr l =>
    simp only [normalizeCommands] at hc
    rw [List.mem_filter] at hc
    obtain ⟨hm, hne⟩ := hc
    obtain ⟨x, _, hx⟩ := List.mem_map.mp hm
    exact ⟨by rw [← hx, jsTrim_idem], by simpa using hne⟩
  | .prim v =>
    simp only [normalizeCommands] at hc
    by_cases hv : (!v.truthy) = true
    · rw [if_pos hv] at hc
      simp at hc
    · rw [if_neg hv] at hc
      rw [List.mem_filter] at hc
      obtain ⟨hm, hne⟩ := hc
      obtain ⟨x, _, hx⟩ := List.mem_map.mp hm
      exact ⟨by rw [← hx, jsTrim_idem], by simpa using hne⟩

/-- C1: with a ready session, commands of a batch are attempted
strictly in order; when the engine reports failure at index `i`,
exactly the commands `0..i` have been attempted (in order), no later
command is attempted, and the thrown error message is the failure
prefix followed by the text of command `i`. -/
theorem executeCommands_failure_ordered (ev : Str → Bool) (st : AppState) (cmds : List Str)
    (i : Nat) (hi : i < cmds.length)
    (hclean : ∀ c ∈ cmds, jsTrim c = c ∧ c ≠ [])
    (hsucc : ∀ j (hj : j < i), ev (cmds.get ⟨j, hj.trans hi⟩) = true)
    (hfail : ev (cmds.get ⟨i, hi⟩) = false) :
    executeCommands ev true (.arr (cmds.map JSVal.str)) st =
      (st, cmds.take (i + 1), .error (ERR_CMD_FAIL ++ cmds.get ⟨i, hi⟩)) := by
  have hnorm := normalizeCommands_map_str hclean
  have hne : cmds.isEmpty = false := by
    cases cmds with
    | nil => simp at hi
    | cons c cs => rfl
  have hloop := evalLoop_failure ev cmds i hi hsucc hfail
  simp [executeCommands, hnorm, hne, hloop]

/-- Witness for C1 at a concrete input: command 2 of 3 fails, exactly
commands 1 and 2 are attempted and the error names command 2's text. -/
theorem executeCommands_failure_ordered_witness :
    (∀ c ∈ ["A = (0, 0)".toList, "B = (9, 9)".toList, "C = (1, 2)".toList],
        jsTrim c = c ∧ c ≠ []) ∧
    executeCommands (fun c => !(c == "B = (9, 9)".toList)) true
        (.arr (["A = (0, 0)".toList, "B = (9, 9)".toList, "C = (1, 2)".toList].map JSVal.str))
        ⟨[], [], []⟩ =
      (⟨[], [], []⟩, ["A = (0, 0)".toList, "B = (9, 9)".toList],
        .error (ERR_CMD_FAIL ++ "B = (9, 9)".toList)) := by
  refine ⟨by decide, ?_⟩
  have h := executeCommands_failure_ordered (fun c => !(c == "B = (9, 9)".toList)) ⟨[], [], []⟩
    ["A = (0, 0)".toList, "B = (9, 9)".toList, "C = (1, 2)".toList] 1 (by decide)
    (by decide) (by decide) (by decide)
  rw [h]
  decide

/-- C9 counterexample: through the submit flow the last-applied record
is set to the incoming batch **before** execution, so after a batch
whose first command fails, the record holds the new (failed) batch, not
its value from before the batch was attempted. -/
theorem lastCommands_updated_on_failure_cex :
    (executeCommands (fun _ => false) true (.arr [JSVal.str "P = (1, 1)".toList])
        ⟨["O = (0, 0)".toList], [], []⟩).2.2 =
      .error (ERR_CMD_FAIL ++ "P = (1, 1)".toList) ∧
    (onSubmitApplyResponse (fun _ => false) true (.arr [JSVal.str "P = (1, 1)".toList])
        "说明".toList false ⟨["O = (0, 0)".toList], [], []⟩).lastCommands =
      ["P = (1, 1)".toList] ∧
    ["P = (1, 1)".toList] ≠ ["O = (0, 0)".toList] := by decide

/-- C9 amended: `executeCommands` itself updates the last-applied
record to the batch exactly when the whole batch succeeds (on failure
it leaves the state as passed in); but the submit flow stores the
incoming batch in the record before executing it, so after the flow the
record always holds the newly received batch, whether or not execution
succeeded. -/
theorem lastCommands_update_spec (ev : Str → Bool) (st : AppState) (data : JSCmds)
    (ready : Bool) (expl : Str) (nc : Bool) :
    (executeCommands ev true data st).1.lastCommands =
      (if (normalizeCommands data).isEmpty then st.lastCommands
       else
        match (evalLoop ev (normalizeCommands data)).2 with
        | .ok _ => normalizeCommands data
        | .error _ => st.lastCommands) ∧
    (onSubmitApplyResponse ev ready data expl nc st).lastCommands =
      normalizeCommands data := by
  constructor
  · by_cases he : (normalizeCommands data).isEmpty = true
    · simp [executeCommands, he]
    · rcases hres : evalLoop ev (normalizeCommands data) with ⟨tr, res⟩
      cases res with
      | ok u => simp [executeCommands, he, hres]
      | error e => simp [executeCommands, he, hres]
  · have hfix := normalizeCommands_map_str (normalizeCommands_clean data)
    unfold onSubmitApplyResponse
    by_cases hlen : (normalizeCommands data).length > 0
    · rw [if_pos hlen]
      have hne : (normalizeCommands data).isEmpty = false := by
        cases hcn : normalizeCommands data with
        | nil => rw [hcn] at hlen; simp at hlen
        | cons a l => rfl
      cases ready with
      | false => simp [executeCommands, hfix]
      | true =>
        rcases hres : evalLoop ev (normalizeCommands data) with ⟨tr, res⟩
        cases res with
        | ok u => simp [executeCommands, hfix, hne, hres]
        | error e => simp [executeCommands, hfix, hne, hres]
    · rw [if_neg hlen]
      by_cases hnc : nc
      · rw [if_pos hnc]
      · rw [if_neg hnc]

/-! ## C5: orchestrator mode values -/

/-- C5 counterexample: with a credential configured and a successful
model reply, the mode is the string `llm`, not `model`; so the mode
field does take a value outside `{fallback, model}`. -/
theorem mode_llm_not_model_cex :
    (callDeepSeekChat ⟨some ['k'], false⟩ (.reply (.str "你好".toList)) "画圆".toList
        none).toOption.map ChatResult.mode = some "llm".toList ∧
    "llm".toList ≠ "model".toList := by decide

/-- C5 amended: the mode is `fallback` when no credential is configured
(and then the result does not depend on the network outcome — no network
call is consulted), `llm` (not `model`) when a credential is configured
and the model call succeeds, and never anything outside
`{fallback, llm}`. -/
theorem callDeepSeekChat_mode_spec (env : Env) (net : NetOutcome) (userText : Str)
    (history : Option (List HistElem)) :
    (env.apiKey = none →
      (∀ net', callDeepSeekChat env net' userText history =
        callDeepSeekChat env net userText history) ∧
      ∃ r, callDeepSeekChat env net userText history = .ok r ∧
        r.mode = "fallback".toList) ∧
    (env.apiKey ≠ none → ∀ c, net = .reply c →
      ∃ r, callDeepSeekChat env net userText history = .ok r ∧ r.mode = "llm".toList) ∧
    (∀ r, callDeepSeekChat env net userText history = .ok r →
      r.mode = "fallback".toList ∨ r.mode = "llm".toList) := by
  refine ⟨?_, ?_, ?_⟩
  · intro hk
    refine ⟨fun net' => ?_, ?_⟩
    · simp [callDeepSeekChat, hk]
    · refine ⟨⟨"fallback".toList, (ruleBasedFallback (.str userText)).explanation,
        (ruleBasedFallback (.str userText)).commands, .nullv⟩, ?_, rfl⟩
      simp [callDeepSeekChat, hk]
  · intro hk c hc
    match henv : env.apiKey with
    | none => exact absurd henv hk
    | some k =>
      refine ⟨⟨"llm".toList, (extractGeoGebraBlock c).explanation,
        (extractGeoGebraBlock c).commands, c⟩, ?_, rfl⟩
      simp [callDeepSeekChat, henv, hc]
  · intro r hr
    match henv : env.apiKey with
    | none =>
      simp [callDeepSeekChat, henv] at hr
      left
      rw [← hr]
      rfl
    | some k =>
      match net with
      | .failure e => simp [callDeepSeekChat, henv] at hr
      | .reply c =>
        simp [callDeepSeekChat, henv] at hr
        right
        rw [← hr]
        rfl

/-- Witness for C5's amended theorem at a concrete input. -/
theorem callDeepSeekChat_mode_spec_witness :
    (⟨none, false⟩ : Env).apiKey = none ∧
    callDeepSeekChat ⟨none, false⟩ (.failure "boom".toList) "画一个圆".toList none =
      callDeepSeekChat ⟨none, false⟩ (.reply .undef) "画一个圆".toList none ∧
    (callDeepSeekChat ⟨none, false⟩ (.reply .undef) "画一个圆".toList
        none).toOption.map ChatResult.mode = some "fallback".toList := by
  have h := (callDeepSeekChat_mode_spec ⟨none, false⟩ (.reply .undef)
    "画一个圆".toList none).1 rfl
  refine ⟨rfl, h.1 _, ?_⟩
  obtain ⟨r, hr, hm⟩ := h.2
  rw [hr, ← hm]
  rfl

/-! ## C10: the fallback's empty-input branch is unreachable over HTTP -/

/-- C10: blank or non-string text is rejected with the 400 response
before any translation; for accepted text, the user text handed to the
pipeline is the trimmed original, which is non-empty (and stays
non-empty after the fallback's own re-trim), so the Fallback Generator
can never produce the `你的输入为空` empty-input result for a request
that passed validation. -/
theorem fallback_empty_branch_unreachable (env : Env) (net : NetOutcome) (text : JSVal)
    (history : Option (List HistElem)) :
    ((!text.truthy || !text.isStr || (jsTrim text.toStr).isEmpty) = true →
      translateHandler env net text history = .badRequest BAD_TEXT_MSG) ∧
    ((!text.truthy || !text.isStr || (jsTrim text.toStr).isEmpty) = false →
      jsTrim (jsStrOrEmpty (.str (jsTrim text.toStr))) ≠ [] ∧
      (ruleBasedFallback (.str (jsTrim text.toStr))).explanation ≠ EMPTY_INPUT_MSG) := by
  constructor
  · intro hbad
    simp [translateHandler, hbad]
  · intro hok
    simp only [Bool.or_eq_false_iff] at hok
    obtain ⟨-, hne⟩ := hok
    have htne : jsTrim text.toStr ≠ [] := by
      intro h
      rw [h] at hne
      simp [List.isEmpty] at hne
    have hcoe : jsStrOrEmpty (.str (jsTrim text.toStr)) = jsTrim text.toStr := by
      simp [jsStrOrEmpty, JSVal.truthy, JSVal.toStr, htne]
    constructor
    · rw [hcoe, jsTrim_idem]
      exact htne
    · unfold ruleBasedFallback
      rw [hcoe, jsTrim_idem]
      rw [if_neg (by simp [htne])]
      split
      · decide
      · split
        · decide
        · split
          · decide
          · decide

/-- Witness for C10 at a concrete input. -/
theorem fallback_empty_branch_unreachable_witness :
    ((!(JSVal.str "  ".toList).truthy || !(JSVal.str "  ".toList).isStr ||
        (jsTrim (JSVal.str "  ".toList).toStr).isEmpty) = true ∧
      translateHandler ⟨none, false⟩ (.reply .undef) (.str "  ".toList) none =
        .badRequest BAD_TEXT_MSG) ∧
    ((!(JSVal.str " 画一个圆 ".toList).truthy || !(JSVal.str " 画一个圆 ".toList).isStr ||
        (jsTrim (JSVal.str " 画一个圆 ".toList).toStr).isEmpty) = false ∧
      (ruleBasedFallback (.str (jsTrim (JSVal.str " 画一个圆 ".toList).toStr))).explanation ≠
        EMPTY_INPUT_MSG) :=
  ⟨⟨by decide, (fallback_empty_branch_unreachable ⟨none, false⟩ (.reply .undef)
      (.str "  ".toList) none).1 (by decide)⟩,
   ⟨by decide, ((fallback_empty_branch_unreachable ⟨none, false⟩ (.reply .undef)
      (.str " 画一个圆 ".toList) none).2 (by decide)).2⟩⟩

/-! ## C4: no-commands responses are clarifications, not errors -/

/-- C4: for a valid non-blank text whose pipeline result sanitizes to
no executable commands, the handler responds with the 200 body:
empty command list, `needClarification = true`, and the explanation
as-is when non-empty or the default clarification prompt otherwise —
never an error response. -/
theorem translate_no_commands_clarifies (env : Env) (net : NetOutcome) (text : JSVal)
    (history : Option (List HistElem)) (r : ChatResult)
    (hvalid : (!text.truthy || !text.isStr || (jsTrim text.toStr).isEmpty) = false)
    (hcall : callDeepSeekChat env net (jsTrim text.toStr) history = .ok r)
    (hempty : sanitizeCommands (some (r.commands.map JSVal.str)) = []) :
    translateHandler env net text history =
      .ok (if r.explanation.isEmpty then CLARIFY_DEFAULT else r.explanation)
        [] true (if env.returnRaw then some r.raw else none) r.mode := by
  unfold translateHandler
  rw [if_neg (by simp [hvalid])]
  rw [hcall]
  simp only [hempty, List.isEmpty_nil, if_true]

/-- Witness for C4 at a concrete input (fallback demo-mode reply has no
commands and yields a clarification). -/
theorem translate_no_commands_clarifies_witness :
    ((!(JSVal.str "你好".toList).truthy || !(JSVal.str "你好".toList).isStr ||
        (jsTrim (JSVal.str "你好".toList).toStr).isEmpty) = false ∧
      callDeepSeekChat ⟨none, false⟩ (.reply .undef) (jsTrim (JSVal.str "你好".toList).toStr)
          none = .ok ⟨"fallback".toList, DEMO_MODE_MSG, [], .nullv⟩ ∧
      sanitizeCommands (some ((([] : List Str)).map JSVal.str)) = []) ∧
    translateHandler ⟨none, false⟩ (.reply .undef) (.str "你好".toList) none =
      .ok DEMO_MODE_MSG [] true none "fallback".toList := by
  refine ⟨⟨by decide, by decide, by decide⟩, ?_⟩
  have h := translate_no_commands_clarifies ⟨none, false⟩ (.reply .undef)
    (.str "你好".toList) none ⟨"fallback".toList, DEMO_MODE_MSG, [], .nullv⟩
    (by decide) (by decide) (by decide)
  rw [h]
  decide

end GeoVis
